import Mathlib

/-!
Verification of the `pb-filesystem` crate: a shallow embedding of its data
model (errors, file metadata, directory entries), the permit-limited handle
lifecycle (`src/pb-filesystem/src/filesystem.rs`, `handle.rs`), the Darwin
platform adapter (`src/pb-filesystem/src/platform/darwin/mod.rs`), and the
concurrent tree walk (`src/pb-filesystem/src/tree.rs`), together with proofs
and refutations of the specified properties.

Machine integers: the Rust code uses `usize`/`u64` counters that are asserted
to never overflow (`checked_add(..).expect(..)`); the embedding uses `Nat`.
Raw bytes are modelled as `Nat`; byte buffers as `List Nat`.
-/

namespace PbFs

/-- Error taxonomy of the crate, from `src/pb-filesystem/src/lib.rs`
(`enum Error`). -/
inductive Error where
  | PermissionDenied : Error
  | NotFound : Error
  | NoProcess : Error
  | InvalidData : String → Error
  | NotAFile : String → Error
  | Unknown : String → Error
deriving DecidableEq, Repr

/-- Kind of object on the filesystem, from `src/pb-filesystem/src/lib.rs`
(`enum FileType`). -/
inductive FileType where
  | File : FileType
  | Directory : FileType
  | Symlink : FileType
deriving DecidableEq, Repr

/-- Timespec from `pb-types` (seconds and nanoseconds). -/
structure Timespec where
  secs : Int
  nanos : Int
deriving DecidableEq, Repr

/-- Metadata snapshot, from `src/pb-filesystem/src/lib.rs` (`struct FileStat`). -/
structure FileStat where
  size : Nat
  kind : FileType
  inode : Nat
  mode : Nat
  user : Nat
  group : Nat
  mtime : Timespec
  ctime : Timespec
  optimal_blocksize : Option Nat
deriving DecidableEq, Repr

/-- One entry of a directory listing, from `src/pb-filesystem/src/lib.rs`
(`struct DirectoryEntry`); `PbFilename` is a plain `String` wrapper. -/
structure DirectoryEntry where
  inode : Nat
  name : String
  kind : FileType
deriving DecidableEq, Repr

end PbFs

namespace PbFs.Permits

/-!
Permit accounting for claim C1.

`Filesystem::new(num_threads, max_handles)` creates a semaphore with
`max_handles` permits (`filesystem.rs` lines 32-39).  Each handle produced by
one of the `HandleBuilder` futures holds one `OwnedSemaphorePermit`
(`handle.rs` lines 401-585); a failed open drops the already-acquired permit
when the error propagates; `Handle::close` / `Filesystem::close` take the
descriptor and permit out of the handle, run the close syscall and drop the
permit even when the syscall errors (`handle.rs` lines 104-121,
`filesystem.rs` lines 54-61); `Drop for Handle` sends a `DroppedHandle`
holding the permit to the deferred-close worker (`handle.rs` lines 231-252);
and the worker closes the descriptor and drops the permit regardless of the
close result (`filesystem.rs` lines 87-124).

The abstraction tracks only the permit counts: `available` mirrors
`Semaphore::available_permits`, `live` counts handles currently holding a
descriptor and permit, `queued` counts `DroppedHandle`s waiting in the
deferred-close channel.
-/

/-- Permit-relevant state of one `Filesystem` plus its outstanding handles. -/
structure FsState where
  maxHandles : Nat
  available : Nat
  live : Nat
  queued : Nat
deriving DecidableEq, Repr

/-- The events that move permits around, one per code path in the source:

* `openOk` — a `HandleBuilder` future acquires a permit and the open syscall
  succeeds, producing a live handle (`handle.rs` lines 401-585);
* `openErr` — the permit was acquired but the open (or path conversion)
  failed, so the future returns the error and the permit is dropped;
* `closeHandle` — `Handle::close` (or `Filesystem::close`) extracts the
  descriptor and permit, closes, and drops the permit whether or not the close
  syscall succeeded;
* `dropHandle` — `Drop for Handle` extracts the descriptor and permit into a
  `DroppedHandle` and sends it on `drops_tx` (`handle.rs` lines 231-252);
* `drainOne` — the deferred-close worker receives one `DroppedHandle`, closes
  it and drops the permit regardless of the close result (`filesystem.rs`
  lines 104-122).
-/
inductive FsOp where
  | openOk : FsOp
  | openErr : FsOp
  | closeHandle : FsOp
  | dropHandle : FsOp
  | drainOne : FsOp
deriving DecidableEq, Repr

/-- `Filesystem::new(_, max_handles)`: the semaphore starts with `max_handles`
permits and no handles exist. -/
def FsState.init (maxHandles : Nat) : FsState :=
  { maxHandles := maxHandles, available := maxHandles, live := 0, queued := 0 }

/-- One step of the permit state machine.  An operation whose precondition is
not met (acquiring with zero available permits suspends the caller; closing,
dropping or draining requires a handle to exist) leaves the state unchanged. -/
def FsState.step (s : FsState) : FsOp → FsState
  | .openOk =>
      if s.available = 0 then s
      else { s with available := s.available - 1, live := s.live + 1 }
  | .openErr =>
      -- The permit is acquired and immediately released when the error
      -- propagates, so the state is unchanged overall (the acquire still
      -- requires an available permit).
      s
  | .closeHandle =>
      if s.live = 0 then s
      else { s with live := s.live - 1, available := s.available + 1 }
  | .dropHandle =>
      if s.live = 0 then s
      else { s with live := s.live - 1, queued := s.queued + 1 }
  | .drainOne =>
      if s.queued = 0 then s
      else { s with queued := s.queued - 1, available := s.available + 1 }

/-- Run a sequence of permit events. -/
def FsState.run (s : FsState) (ops : List FsOp) : FsState :=
  ops.foldl FsState.step s

/-- Permit conservation invariant: permits are either available in the
semaphore, held by a live handle, or held by a queued `DroppedHandle`. -/
def FsState.inv (s : FsState) : Prop :=
  s.available + s.live + s.queued = s.maxHandles

instance (s : FsState) : Decidable s.inv := by
  unfold FsState.inv; infer_instance

theorem FsState.inv_init (maxHandles : Nat) : (FsState.init maxHandles).inv := by
  simp [FsState.init, FsState.inv]

theorem FsState.inv_step (s : FsState) (op : FsOp) (h : s.inv) : (s.step op).inv := by
  unfold FsState.inv at h ⊢
  cases op <;> simp only [FsState.step]
  case openOk =>
    by_cases ha : s.available = 0 <;> simp [ha] <;> omega
  case openErr => exact h
  case closeHandle =>
    by_cases hl : s.live = 0 <;> simp [hl] <;> omega
  case dropHandle =>
    by_cases hl : s.live = 0 <;> simp [hl] <;> omega
  case drainOne =>
    by_cases hq : s.queued = 0 <;> simp [hq] <;> omega

theorem FsState.inv_run (s : FsState) (ops : List FsOp) (h : s.inv) :
    (s.run ops).inv := by
  induction ops generalizing s with
  | nil => exact h
  | cons op rest ih =>
      simpa [FsState.run, List.foldl_cons] using
        ih (s.step op) (FsState.inv_step s op h)

theorem FsState.run_maxHandles (s : FsState) (ops : List FsOp) :
    (s.run ops).maxHandles = s.maxHandles := by
  induction ops generalizing s with
  | nil => rfl
  | cons op rest ih =>
      have hstep : (s.step op).maxHandles = s.maxHandles := by
        cases op <;> simp only [FsState.step] <;> split <;> rfl
      simpa [FsState.run, List.foldl_cons, hstep] using ih (s.step op)

end PbFs.Permits

namespace PbFs

open PbFs.Permits

/-- C1. Permit conservation: starting from `Filesystem::new(_, max_handles)`,
after any sequence of handle opens (successful or failed), explicit closes,
drops, and deferred-close drains, once no live handle remains and the
deferred-close worker has drained every `DroppedHandle`,
`available_permits()` equals `max_handles`: no permit is lost or
double-released, including when an open syscall fails after the permit was
acquired. -/
theorem permit_conservation (maxHandles : Nat) (ops : List FsOp)
    (hlive : ((FsState.init maxHandles).run ops).live = 0)
    (hqueue : ((FsState.init maxHandles).run ops).queued = 0) :
    ((FsState.init maxHandles).run ops).available = maxHandles := by
  have hinv := FsState.inv_run (FsState.init maxHandles) ops
    (FsState.inv_init maxHandles)
  have hmax := FsState.run_maxHandles (FsState.init maxHandles) ops
  unfold FsState.inv at hinv
  rw [hlive, hqueue, hmax] at hinv
  simpa [FsState.init] using hinv

/-- Witness for C1 at a concrete run: three permits; open two handles, one
open fails after acquiring its permit, one handle is closed explicitly, the
other is dropped and then drained by the worker. -/
theorem permit_conservation_witness :
    ((FsState.init 3).run
        [.openOk, .openErr, .openOk, .closeHandle, .dropHandle, .drainOne]).live = 0 ∧
    ((FsState.init 3).run
        [.openOk, .openErr, .openOk, .closeHandle, .dropHandle, .drainOne]).queued = 0 ∧
    ((FsState.init 3).run
        [.openOk, .openErr, .openOk, .closeHandle, .dropHandle, .drainOne]).available = 3 :=
  ⟨by decide, by decide,
    permit_conservation 3
      [.openOk, .openErr, .openOk, .closeHandle, .dropHandle, .drainOne]
      (by decide) (by decide)⟩

end PbFs

namespace PbFs.Tree

/-!
Embedding of the recursive concurrent tree walk, `src/pb-filesystem/src/tree.rs`.

`walk_directory` (tree.rs lines 326-410) is generic over an `open_dir` closure
and a `process_file` closure; in `TreeBuilder::into_future` these open a
directory handle by full path and stat/process a file by full path.  The model
filesystem is an association list from a full path to its directory listing;
`open_dir` fails with `NotFound` when the path is absent, matching a failed
`open(2)`.  Rust futures are lazy: the per-entry child futures pushed into
`futures` (tree.rs lines 353-380) are first polled by the
`futures::future::join_all(futures).await` on line 386, which is reached only
after `handle.close().await?` on line 383.  Sibling interleavings are
abstracted to listing order; that abstraction does not move any child's work
relative to the parent's close, because no child future is polled before
`join_all`.  `BTreeMap` insertion order is abstracted to listing order, which
leaves the key set, the node count and the per-node sizes unchanged.  The
unbounded recursion is given explicit fuel; `none` means the fuel ran out.
-/

/-- Model filesystem: a finite map from a full path to the directory listing
`Handle::list` returns for it (`handle.rs` lines 148-156, which returns the
entries produced by the platform `listdir`). -/
def ModelFs := List (String × List PbFs.DirectoryEntry)

/-- Listing lookup: `open_dir` + `list` on the model filesystem. -/
def ModelFs.lookup (fs : ModelFs) (path : String) :
    Option (List PbFs.DirectoryEntry) :=
  match fs with
  | [] => none
  | (p, entries) :: rest =>
      if p = path then some entries else ModelFs.lookup rest path

/-- Node of the metadata tree, from tree.rs lines 83-92 (`enum TreeNode<T>`):
a file leaf carrying user data, or a directory carrying its children map and
its `recursive_size` counter. -/
inductive TreeNode (T : Type) where
  | file : T → TreeNode T
  | directory : List (String × TreeNode T) → Nat → TreeNode T

/-- A concurrent child task spawned for one directory entry, carrying the full
path handed to the closure and the entry name used as the map key (tree.rs
lines 361-379). -/
inductive WalkTask where
  | processFile : String → String → WalkTask
  | walkSubdir : String → String → WalkTask
deriving DecidableEq, Repr

/-- Per-entry dispatch of `walk_directory` (tree.rs lines 353-380): build the
full path `{path}/{name}`, skip the entry when the ignore glob set matches the
full path, spawn a file task for `FileType::File`, a recursive directory task
for `FileType::Directory`, and nothing for `FileType::Symlink`. -/
def spawnTasks (path : String) (ignoreMatch : String → Bool)
    (entries : List PbFs.DirectoryEntry) : List WalkTask :=
  entries.filterMap fun e =>
    let newPath := path ++ "/" ++ e.name
    if ignoreMatch newPath then none
    else
      match e.kind with
      | .File => some (.processFile newPath e.name)
      | .Directory => some (.walkSubdir newPath e.name)
      | .Symlink => none

/-- Join of the spawned child tasks (tree.rs lines 386-401): await every child
in order, abort on the first error (`result?`), turn a file result into a
`TreeNode::File`, a directory result `(children, size)` into a
`TreeNode::Directory` while adding `size` into the parent's `recursive_size`,
and insert each node under the entry name.  The recursive walk of a
subdirectory is passed in as `recurse`. -/
def joinTasks {T : Type}
    (recurse : String → Option (Except Error (List (String × TreeNode T) × Nat)))
    (processFile : String → Except Error T) :
    List WalkTask → Option (Except Error (List (String × TreeNode T) × Nat))
  | [] => some (.ok ([], 0))
  | .processFile p name :: rest =>
      match processFile p with
      | .error e => some (.error e)
      | .ok d =>
          match joinTasks recurse processFile rest with
          | none => none
          | some (.error e) => some (.error e)
          | some (.ok (children, size)) =>
              some (.ok ((name, .file d) :: children, size))
  | .walkSubdir p name :: rest =>
      match recurse p with
      | none => none
      | some (.error e) => some (.error e)
      | some (.ok (ch, sz)) =>
          match joinTasks recurse processFile rest with
          | none => none
          | some (.error e) => some (.error e)
          | some (.ok (children, size)) =>
              some (.ok ((name, .directory ch sz) :: children, sz + size))

/-- `walk_directory` (tree.rs lines 326-410): open the directory, list it,
spawn one task per surviving entry, close the handle, join the child tasks,
then add the direct child count `children.len()` into `recursive_size`
(tree.rs lines 403-406).  Returns the children map and the `recursive_size`
of the visited directory; `none` when the fuel runs out. -/
def walkDirectory {T : Type} (fs : ModelFs) (ignoreMatch : String → Bool)
    (processFile : String → Except Error T) :
    Nat → String → Option (Except Error (List (String × TreeNode T) × Nat))
  | 0, _ => none
  | fuel + 1, path =>
      match ModelFs.lookup fs path with
      | none => some (.error Error.NotFound)
      | some entries =>
          match
            joinTasks (fun p => walkDirectory fs ignoreMatch processFile fuel p)
              processFile (spawnTasks path ignoreMatch entries)
          with
          | none => none
          | some (.error e) => some (.error e)
          | some (.ok (children, size)) =>
              some (.ok (children, size + children.length))

/-- The metadata tree, from tree.rs lines 18-27 (`struct MetadataTree<T>`):
root path, root node, and the ignore glob set (modelled as its match
predicate). -/
structure MetadataTree (T : Type) where
  root_path : String
  root_node : TreeNode T
  ignoreMatch : Option (String → Bool)

/-- `MetadataTree::size` (tree.rs lines 30-35): `1` for a file root, the
stored `recursive_size` for a directory root. -/
def MetadataTree.size {T : Type} (t : MetadataTree T) : Nat :=
  match t.root_node with
  | .file _ => 1
  | .directory _ recursive_size => recursive_size

/-- `TreeBuilder::into_future` (tree.rs lines 301-322): walk from the root
directory's full path and wrap the result into a `MetadataTree` whose root is
a `TreeNode::Directory` with the returned children and `recursive_size`. -/
def buildTree {T : Type} (fs : ModelFs) (ignoreMatch : Option (String → Bool))
    (processFile : String → Except Error T) (fuel : Nat) (rootPath : String) :
    Option (Except Error (MetadataTree T)) :=
  match walkDirectory fs (fun p => (ignoreMatch.map (fun f => f p)).getD false)
      processFile fuel rootPath with
  | none => none
  | some (.error e) => some (.error e)
  | some (.ok (children, recursive_size)) =>
      some (.ok { root_path := rootPath,
                  root_node := .directory children recursive_size,
                  ignoreMatch := ignoreMatch })

/-- Number of file leaves in a forest of tree nodes. -/
def leafCountForest {T : Type} : List (String × TreeNode T) → Nat
  | [] => 0
  | (_, .file _) :: rest => 1 + leafCountForest rest
  | (_, .directory ch _) :: rest => leafCountForest ch + leafCountForest rest

/-- Number of nodes (file leaves and directory nodes alike) in a forest of
tree nodes. -/
def nodeCountForest {T : Type} : List (String × TreeNode T) → Nat
  | [] => 0
  | (_, .file _) :: rest => 1 + nodeCountForest rest
  | (_, .directory ch _) :: rest => 1 + nodeCountForest ch + nodeCountForest rest

end PbFs.Tree

namespace PbFs.Tree

/-- Await points of one `walk_directory` activation, in program order
(tree.rs lines 344-401): `open_dir(path)` (line 346), `handle.list()` (line
347), `handle.close()` (line 383), and — only inside the later
`join_all(futures)` on line 386 — the child tasks, a `procFile` event for a
file child and a nested activation for a subdirectory child. -/
inductive Event where
  | openDir : String → Event
  | listDir : String → Event
  | closeDir : String → Event
  | procFile : String → Event
deriving DecidableEq, Repr

/-- The full path an event refers to. -/
def Event.path : Event → String
  | .openDir p => p
  | .listDir p => p
  | .closeDir p => p
  | .procFile p => p

/-- The full path a spawned task was given (tree.rs lines 363 and 371). -/
def WalkTask.fullPath : WalkTask → String
  | .processFile p _ => p
  | .walkSubdir p _ => p

/-- Events produced by awaiting the spawned child tasks in order inside
`join_all` (tree.rs line 386); the recursive walk of a subdirectory is passed
in as `recurse`. -/
def taskEvents (recurse : String → Option (List Event)) :
    List WalkTask → Option (List Event)
  | [] => some []
  | .processFile p _ :: rest =>
      match taskEvents recurse rest with
      | none => none
      | some evs => some (.procFile p :: evs)
  | .walkSubdir p _ :: rest =>
      match recurse p, taskEvents recurse rest with
      | some evs₁, some evs₂ => some (evs₁ ++ evs₂)
      | _, _ => none

/-- Await-point trace of a successful `walk_directory` run (tree.rs lines
344-401): the directory is opened, listed, and closed — and only then are the
child futures first polled by `join_all`, so every child event follows the
parent's close.  `none` when the walk fails or the fuel runs out. -/
def walkEvents (fs : ModelFs) (ignoreMatch : String → Bool) :
    Nat → String → Option (List Event)
  | 0, _ => none
  | fuel + 1, path =>
      match ModelFs.lookup fs path with
      | none => none
      | some entries =>
          match
            taskEvents (fun p => walkEvents fs ignoreMatch fuel p)
              (spawnTasks path ignoreMatch entries)
          with
          | none => none
          | some childEvents =>
              some (.openDir path :: .listDir path :: .closeDir path :: childEvents)

/-- Every task spawned for an entry of `path` carries the strictly longer full
path `{path}/{name}` (tree.rs line 354). -/
theorem spawnTasks_fullPath_longer (path : String) (ignoreMatch : String → Bool)
    (entries : List PbFs.DirectoryEntry) :
    ∀ t ∈ spawnTasks path ignoreMatch entries,
      path.length < t.fullPath.length := by
  intro t ht
  simp only [spawnTasks, List.mem_filterMap] at ht
  obtain ⟨e, _, he⟩ := ht
  have hlen : path.length < (path ++ "/" ++ e.name).length := by
    have hs : "/".length = 1 := rfl
    simp [String.length_append]
    omega
  by_cases hig : ignoreMatch (path ++ "/" ++ e.name)
  · simp [hig] at he
  · cases hk : e.kind <;> simp [hig, hk] at he
    · simpa [WalkTask.fullPath, ← he] using hlen
    · simpa [WalkTask.fullPath, ← he] using hlen

end PbFs.Tree

namespace PbFs.Tree

/-- Events of the awaited child tasks all lie strictly deeper than the parent:
given that every recursive sub-walk only produces events at or below its own
path, every event produced by `taskEvents` over tasks spawned at depth `L`
has a strictly longer path. -/
theorem taskEvents_path_gt (recurse : String → Option (List Event))
    (hrec : ∀ p tr, recurse p = some tr →
      ∀ e ∈ tr, p.length ≤ (Event.path e).length) (L : Nat) :
    ∀ tasks evs, (∀ t ∈ tasks, L < t.fullPath.length) →
      taskEvents recurse tasks = some evs →
      ∀ e ∈ evs, L < (Event.path e).length := by
  intro tasks
  induction tasks with
  | nil =>
      intro evs _ h e he
      simp only [taskEvents] at h
      cases h
      simp at he
  | cons t rest ih =>
      intro evs htasks h e he
      cases t with
      | processFile p name =>
          simp only [taskEvents] at h
          cases hte : taskEvents recurse rest with
          | none => rw [hte] at h; cases h
          | some evs₂ =>
              rw [hte] at h
              cases h
              rcases List.mem_cons.mp he with rfl | hmem
              · simpa [Event.path] using
                  htasks _ (List.mem_cons_self _ _)
              · exact ih evs₂ (fun t ht => htasks t (List.mem_cons_of_mem _ ht))
                  hte e hmem
      | walkSubdir p name =>
          simp only [taskEvents] at h
          cases hrp : recurse p with
          | none => rw [hrp] at h; cases h
          | some evs₁ =>
              cases hte : taskEvents recurse rest with
              | none => rw [hrp, hte] at h; cases h
              | some evs₂ =>
                  rw [hrp, hte] at h
                  cases h
                  rcases List.mem_append.mp he with hmem | hmem
                  · have hp : L < p.length := by
                      simpa [WalkTask.fullPath] using
                        htasks _ (List.mem_cons_self _ _)
                    exact lt_of_lt_of_le hp (hrec p evs₁ hrp e hmem)
                  · exact ih evs₂
                      (fun t ht => htasks t (List.mem_cons_of_mem _ ht))
                      hte e hmem

/-- Every event of a walk rooted at `path` has a path at least as long as
`path`. -/
theorem walkEvents_path_ge (fs : ModelFs) (ig : String → Bool) :
    ∀ fuel path tr, walkEvents fs ig fuel path = some tr →
      ∀ e ∈ tr, path.length ≤ (Event.path e).length := by
  intro fuel
  induction fuel with
  | zero => intro path tr h; simp [walkEvents] at h
  | succ fuel ih =>
      intro path tr h e he
      simp only [walkEvents] at h
      cases hlk : ModelFs.lookup fs path with
      | none => rw [hlk] at h; cases h
      | some entries =>
          rw [hlk] at h
          dsimp only at h
          cases hte : taskEvents (fun p => walkEvents fs ig fuel p)
              (spawnTasks path ig entries) with
          | none => rw [hte] at h; cases h
          | some childEvents =>
              rw [hte] at h
              cases h
              rcases List.mem_cons.mp he with rfl | he₁
              · simp [Event.path]
              rcases List.mem_cons.mp he₁ with rfl | he₂
              · simp [Event.path]
              rcases List.mem_cons.mp he₂ with rfl | he₃
              · simp [Event.path]
              · exact le_of_lt
                  (taskEvents_path_gt (fun p => walkEvents fs ig fuel p)
                    (fun p tr hp => ih p tr hp) path.length
                    (spawnTasks path ig entries) childEvents
                    (spawnTasks_fullPath_longer path ig entries) hte e he₃)

end PbFs.Tree

namespace PbFs.Tree

/-- Sample filesystem with one directory `/r` holding one file `f`. -/
def fileOnlyFs : ModelFs := [("/r", [⟨1, "f", .File⟩])]

/-- C2 counterexample: walking `/r` containing the single file `f` produces
the await-point trace `open, list, close, process-file` — the parent handle's
close (`handle.close().await?`, tree.rs line 383) strictly precedes the
child's task, which is first polled by `join_all` on line 386.  The claim's
ordering (child tasks joined before the parent's close) fails at this input:
the child event does not precede the close event. -/
theorem close_precedes_children_at_file_only_fs :
    walkEvents fileOnlyFs (fun _ => false) 2 "/r" =
      some [.openDir "/r", .listDir "/r", .closeDir "/r", .procFile "/r/f"] ∧
    ([Event.openDir "/r", .listDir "/r", .closeDir "/r", .procFile "/r/f"].indexOf
        (Event.closeDir "/r") <
      [Event.openDir "/r", .listDir "/r", .closeDir "/r", .procFile "/r/f"].indexOf
        (Event.procFile "/r/f")) ∧
    ¬ ([Event.openDir "/r", .listDir "/r", .closeDir "/r", .procFile "/r/f"].indexOf
        (Event.procFile "/r/f") <
      [Event.openDir "/r", .listDir "/r", .closeDir "/r", .procFile "/r/f"].indexOf
        (Event.closeDir "/r")) :=
  ⟨rfl, by decide, by decide⟩

/-- C2 (amended): in every recursive step of `walk_directory`, the parent
directory handle is closed directly after listing the directory and spawning
(but not polling) the child futures; all child-task events happen strictly
after the parent's close, at strictly deeper paths.  The amended ordering is
"list, then close, then join children", not "join children, then close". -/
theorem parent_closed_after_list_before_children (fs : ModelFs)
    (ig : String → Bool) (fuel : Nat) (path : String) (tr : List Event)
    (h : walkEvents fs ig fuel path = some tr) :
    ∃ rest, tr = .openDir path :: .listDir path :: .closeDir path :: rest ∧
      ∀ e ∈ rest, path.length < (Event.path e).length := by
  cases fuel with
  | zero => simp [walkEvents] at h
  | succ fuel =>
      simp only [walkEvents] at h
      cases hlk : ModelFs.lookup fs path with
      | none => rw [hlk] at h; cases h
      | some entries =>
          rw [hlk] at h
          dsimp only at h
          cases hte : taskEvents (fun p => walkEvents fs ig fuel p)
              (spawnTasks path ig entries) with
          | none => rw [hte] at h; cases h
          | some childEvents =>
              rw [hte] at h
              cases h
              refine ⟨childEvents, rfl, ?_⟩
              exact taskEvents_path_gt (fun p => walkEvents fs ig fuel p)
                (fun p tr hp => walkEvents_path_ge fs ig fuel p tr hp)
                path.length (spawnTasks path ig entries) childEvents
                (spawnTasks_fullPath_longer path ig entries) hte

/-- Witness for the amended C2 ordering at the concrete one-file
filesystem. -/
theorem parent_closed_after_list_before_children_witness :
    ∃ rest,
      [Event.openDir "/r", .listDir "/r", .closeDir "/r", .procFile "/r/f"] =
        .openDir "/r" :: .listDir "/r" :: .closeDir "/r" :: rest ∧
      ∀ e ∈ rest, ("/r" : String).length < (Event.path e).length :=
  parent_closed_after_list_before_children fileOnlyFs (fun _ => false) 2 "/r"
    [Event.openDir "/r", .listDir "/r", .closeDir "/r", .procFile "/r/f"] rfl

end PbFs.Tree

namespace PbFs.Tree
/-- A forest is well-sized when every directory node in it stores a
`recursive_size` equal to the total number of nodes (file leaves and
directory nodes alike) in its subtree. -/
def wellSizedForest {T : Type} : List (String × TreeNode T) → Bool
  | [] => true
  | (_, .file _) :: rest => wellSizedForest rest
  | (_, .directory ch rs) :: rest =>
      (rs == nodeCountForest ch) && wellSizedForest ch && wellSizedForest rest

/-- Joining the child tasks accumulates exactly the sum of the subdirectory
sizes; together with the `+ children.len()` applied afterwards, the result
counts every node in the forest once.  The hypothesis supplies the inductive
fact for the recursive sub-walks. -/
theorem joinTasks_size {T : Type}
    (recurse : String → Option (Except Error (List (String × TreeNode T) × Nat)))
    (pf : String → Except Error T)
    (hrec : ∀ p ch sz, recurse p = some (.ok (ch, sz)) →
      sz = nodeCountForest ch ∧ wellSizedForest ch = true) :
    ∀ tasks children size,
      joinTasks recurse pf tasks = some (.ok (children, size)) →
      size + children.length = nodeCountForest children ∧
        wellSizedForest children = true := by
  intro tasks
  induction tasks with
  | nil =>
      intro children size h
      simp only [joinTasks, Option.some.injEq, Except.ok.injEq,
        Prod.mk.injEq] at h
      obtain ⟨h₁, h₂⟩ := h
      subst h₁
      subst h₂
      simp [nodeCountForest, wellSizedForest]
  | cons t rest ih =>
      intro children size h
      cases t with
      | processFile p name =>
          simp only [joinTasks] at h
          cases hpf : pf p with
          | error e => rw [hpf] at h; cases h
          | ok d =>
              rw [hpf] at h
              dsimp only at h
              cases hjt : joinTasks recurse pf rest with
              | none => rw [hjt] at h; cases h
              | some r =>
                  cases r with
                  | error e => rw [hjt] at h; cases h
                  | ok pr =>
                      obtain ⟨children₁, size₁⟩ := pr
                      rw [hjt] at h
                      dsimp only at h
                      simp only [Option.some.injEq, Except.ok.injEq,
                        Prod.mk.injEq] at h
                      obtain ⟨h₁, h₂⟩ := h
                      subst h₁
                      subst h₂
                      obtain ⟨ih₁, ih₂⟩ := ih children₁ size₁ hjt
                      constructor
                      · simp only [nodeCountForest, List.length_cons]
                        omega
                      · simpa [wellSizedForest] using ih₂
      | walkSubdir p name =>
          simp only [joinTasks] at h
          cases hrp : recurse p with
          | none => rw [hrp] at h; cases h
          | some r =>
              cases r with
              | error e => rw [hrp] at h; cases h
              | ok pr =>
                  obtain ⟨ch, sz⟩ := pr
                  rw [hrp] at h
                  dsimp only at h
                  cases hjt : joinTasks recurse pf rest with
                  | none => rw [hjt] at h; cases h
                  | some r₂ =>
                      cases r₂ with
                      | error e => rw [hjt] at h; cases h
                      | ok pr₂ =>
                          obtain ⟨children₁, size₁⟩ := pr₂
                          rw [hjt] at h
                          dsimp only at h
                          simp only [Option.some.injEq, Except.ok.injEq,
                            Prod.mk.injEq] at h
                          obtain ⟨h₁, h₂⟩ := h
                          subst h₁
                          subst h₂
                          obtain ⟨hsz, hws⟩ := hrec p ch sz hrp
                          obtain ⟨ih₁, ih₂⟩ := ih children₁ size₁ hjt
                          constructor
                          · simp only [nodeCountForest, List.length_cons]
                            omega
                          · simp [wellSizedForest, hsz, hws, ih₂]

/-- Every successful `walk_directory` run returns a `recursive_size` equal to
the total number of nodes in the returned forest, and every directory node in
that forest is well-sized the same way. -/
theorem walkDirectory_size {T : Type} (fs : ModelFs) (ig : String → Bool)
    (pf : String → Except Error T) :
    ∀ fuel path children size,
      walkDirectory fs ig pf fuel path = some (.ok (children, size)) →
      size = nodeCountForest children ∧ wellSizedForest children = true := by
  intro fuel
  induction fuel with
  | zero => intro path children size h; simp [walkDirectory] at h
  | succ fuel ih =>
      intro path children size h
      simp only [walkDirectory] at h
      cases hlk : ModelFs.lookup fs path with
      | none => rw [hlk] at h; cases h
      | some entries =>
          rw [hlk] at h
          dsimp only at h
          cases hjt : joinTasks (fun p => walkDirectory fs ig pf fuel p) pf
              (spawnTasks path ig entries) with
          | none => rw [hjt] at h; cases h
          | some r =>
              cases r with
              | error e => rw [hjt] at h; cases h
              | ok pr =>
                  obtain ⟨children₁, size₁⟩ := pr
                  rw [hjt] at h
                  dsimp only at h
                  simp only [Option.some.injEq, Except.ok.injEq,
                    Prod.mk.injEq] at h
                  obtain ⟨h₁, h₂⟩ := h
                  subst h₁
                  subst h₂
                  have hj := joinTasks_size
                    (fun p => walkDirectory fs ig pf fuel p) pf
                    (fun p ch sz hr => ih p ch sz hr)
                    (spawnTasks path ig entries) children₁ size₁ hjt
                  exact ⟨hj.1, hj.2⟩

end PbFs.Tree

namespace PbFs.Tree

/-- Sample filesystem: `/r` holds one subdirectory `a`, which holds one file
`f`. -/
def sampleFs : ModelFs :=
  [("/r", [⟨1, "a", .Directory⟩]), ("/r/a", [⟨2, "f", .File⟩])]

/-- Sample per-file work closure: succeed with no data, as `TreeBuilder::new`
does when no `with_data` closure is installed. -/
def samplePf : String → Except Error Unit := fun _ => .ok ()

/-- The tree the walk builds for `sampleFs`. -/
def sampleTree : MetadataTree Unit :=
  { root_path := "/r",
    root_node := .directory [("a", .directory [("f", .file ())] 1)] 2,
    ignoreMatch := none }

/-- C3 counterexample: over `/r » a » f` the walk stores `recursive_size = 2`
at the root (the file `f` plus the subdirectory node `a`), while the subtree
has exactly one file leaf, and `MetadataTree::size()` returns 2 — the stored
count includes subdirectory nodes, so it is not the file-leaf count. -/
theorem recursive_size_is_not_leaf_count :
    buildTree sampleFs none samplePf 3 "/r" = some (.ok sampleTree) ∧
    MetadataTree.size sampleTree = 2 ∧
    leafCountForest [("a", TreeNode.directory [("f", TreeNode.file ())] 1)] = 1 ∧
    (2 : Nat) ≠ 1 :=
  ⟨rfl, rfl, by simp [leafCountForest], by decide⟩

/-- C3 (amended): for every directory node in a built `MetadataTree`, the
`recursive_size` it carries equals the total number of entries — file leaves
and subdirectory nodes alike — in the subtree rooted at that node (not the
file-leaf count), and `MetadataTree::size()` of a walk result equals that
total entry count for the root. -/
theorem recursive_size_counts_all_entries {T : Type} (fs : ModelFs)
    (ig : Option (String → Bool)) (pf : String → Except Error T)
    (fuel : Nat) (rootPath : String) (t : MetadataTree T)
    (h : buildTree fs ig pf fuel rootPath = some (.ok t)) :
    ∃ children, t.root_node = TreeNode.directory children (nodeCountForest children) ∧
      t.size = nodeCountForest children ∧
      wellSizedForest children = true := by
  unfold buildTree at h
  cases hw : walkDirectory fs (fun p => (ig.map (fun f => f p)).getD false)
      pf fuel rootPath with
  | none => rw [hw] at h; cases h
  | some r =>
      cases r with
      | error e => rw [hw] at h; cases h
      | ok pr =>
          obtain ⟨children, size⟩ := pr
          rw [hw] at h
          dsimp only at h
          have hsz := walkDirectory_size fs
            (fun p => (ig.map (fun f => f p)).getD false) pf fuel rootPath
            children size hw
          cases h
          refine ⟨children, ?_, ?_, hsz.2⟩
          · simp [hsz.1]
          · simp [MetadataTree.size, hsz.1]

/-- Witness for the amended C3 at the concrete `sampleFs`. -/
theorem recursive_size_counts_all_entries_witness :
    ∃ children,
      sampleTree.root_node = TreeNode.directory children (nodeCountForest children) ∧
      sampleTree.size = nodeCountForest children ∧
      wellSizedForest children = true :=
  recursive_size_counts_all_entries sampleFs none samplePf 3 "/r" sampleTree rfl

/-- Filesystem whose root listing contains the entry `..`, as every real
`readdir` listing does (the Darwin `listdir`, darwin/mod.rs lines 168-194,
returns every dirent unfiltered). -/
def dotFs : ModelFs := [("/r", [⟨1, "..", .Directory⟩]), ("/r/..", [])]

/-- C4: the per-entry dispatch of `walk_directory` (tree.rs lines 353-380)
contains no filtering of `.` or `..`: with an empty ignore set it launches a
recursive directory task for `.` and for `..`, and the key `..` appears in
the resulting tree (on a real filesystem, where `.` lists the directory
itself, this recursion never terminates).  This contradicts the documented
behavior of discarding `.`/`..`. -/
theorem dot_entries_not_discarded :
    spawnTasks "/r" (fun _ => false)
        [⟨1, ".", .Directory⟩, ⟨2, "..", .Directory⟩] =
      [.walkSubdir "/r/." ".", .walkSubdir "/r/.." ".."] ∧
    walkDirectory dotFs (fun _ => false) samplePf 2 "/r" =
      some (.ok ([("..", .directory [] 0)], 1)) :=
  ⟨rfl, rfl⟩

end PbFs.Tree

namespace PbFs.Darwin

/-!
Embedding of the Darwin platform adapter,
`src/pb-filesystem/src/platform/darwin/mod.rs`, and of the handle-builder
futures in `src/pb-filesystem/src/handle.rs` that drive it.

The libc syscalls themselves (`open(2)`, `fstat(2)`, `dup(2)`, `fdopendir`,
`readdir`, `closedir`, `getrlimit(2)`) are external to the repository; they
are modelled by their documented POSIX/Darwin behavior over an explicit model
of OS state.  A model filesystem maps a path to the `FileStat` of the object
it names; an open descriptor is modelled by the path it refers to.
-/

/-- Open flag constants from darwin/types.rs lines 49-67. -/
def O_RDONLY : Nat := 0x0000

def O_RDWR : Nat := 0x0002

def O_CREAT : Nat := 0x00000200

def O_TRUNC : Nat := 0x00000400

def O_DIRECTORY : Nat := 0x00100000

/-- The generic open options bit-set from platform.rs (`struct OpenOptions`),
one flag per bit. -/
structure OpenOptions where
  read_only : Bool := false
  read_write : Bool := false
  append : Bool := false
  create : Bool := false
  exclusive : Bool := false
  truncate : Bool := false
  directory : Bool := false
deriving DecidableEq, Repr

/-- `OpenOptions::READ_ONLY`, the default used by
`HandleBuilder<FileDetails>` when no builder flag was requested. -/
def OpenOptions.readOnlyOpts : OpenOptions := { read_only := true }

/-- `OpenOptions::DIRECTORY`, used by `HandleBuilder<DirectoryDetails>`
(handle.rs line 549). -/
def OpenOptions.directoryOpts : OpenOptions := { directory := true }

/-- Translation of `OpenOptions` to raw open flags, from `DarwinPlatform::open`
(darwin/mod.rs lines 42-55): an if/else-if chain over the option bits, on top
of an always-present `O_RDONLY`. -/
def darwinOpenFlags (o : OpenOptions) : Nat :=
  let flags := O_RDONLY
  if o.read_write then flags ||| O_RDWR
  else if o.directory then flags ||| O_DIRECTORY
  else if o.create then flags ||| O_CREAT ||| O_RDWR
  else if o.truncate then flags ||| O_TRUNC ||| O_RDWR
  else flags

/-- `Error::from_darwin_sys` (darwin/mod.rs lines 440-447): raw errno values
1, 2, 3 map to typed errors and every other value maps to `Unknown` carrying
the stringified code. -/
def fromDarwinSys (val : Int) : Error :=
  if val = 1 then .PermissionDenied
  else if val = 2 then .NotFound
  else if val = 3 then .NoProcess
  else .Unknown (toString val)

/-- Model filesystem: what object, if any, a path names. -/
def ModelOs := String → Option FileStat

/-- Model of the `open(2)` syscall over the model filesystem, per its Darwin
man page: a missing path fails with `ENOENT` (errno 2) unless `O_CREAT` was
passed, and `O_DIRECTORY` restricts opening to directories, failing with
`ENOTDIR` (errno 20) when the target is not a directory.  The returned
descriptor is modelled by the path. -/
def sysOpen (os : ModelOs) (path : String) (flags : Nat) : Except Int String :=
  match os path with
  | none => if flags &&& O_CREAT ≠ 0 then .ok path else .error 2
  | some st =>
      if flags &&& O_DIRECTORY ≠ 0 ∧ st.kind ≠ .Directory then .error 20
      else .ok path

/-- `DarwinPlatform::open` (darwin/mod.rs lines 39-73): translate the options,
run the syscall, and map a failure through `Error::from_darwin_sys` (the
`check_result` helper, lines 22-30). -/
def DarwinPlatform.open (os : ModelOs) (path : String) (options : OpenOptions) :
    Except Error String :=
  match sysOpen os path (darwinOpenFlags options) with
  | .error errno => .error (fromDarwinSys errno)
  | .ok handle => .ok handle

/-- `DarwinPlatform::fstat` (darwin/mod.rs lines 152-160) over the model: an
open descriptor always refers to an object; a dangling one fails with `EBADF`
(errno 9). -/
def DarwinPlatform.fstat (os : ModelOs) (handle : String) : Except Error FileStat :=
  match os handle with
  | none => .error (fromDarwinSys 9)
  | some st => .ok st

/-- The `IntoFuture` impl for `HandleBuilder<FileDetails>` (handle.rs lines
450-511), path location, no builder flags: acquire a permit, open with the
default `READ_ONLY` options, `fstat` the handle, and fail with
`Error::NotAFile("todo")` when the stat kind is not `FileType::File`;
otherwise return the handle and stat. -/
def asFileAwait (os : ModelOs) (path : String) :
    Except Error (String × FileStat) :=
  match DarwinPlatform.open os path OpenOptions.readOnlyOpts with
  | .error e => .error e
  | .ok handle =>
      match DarwinPlatform.fstat os handle with
      | .error e => .error e
      | .ok stat =>
          if stat.kind ≠ FileType.File then .error (.NotAFile "todo")
          else .ok (handle, stat)

/-- The `IntoFuture` impl for `HandleBuilder<DirectoryDetails>` (handle.rs
lines 513-585), path location, `create = false`: acquire a permit and open
with `OpenOptions::DIRECTORY`. -/
def asDirectoryAwait (os : ModelOs) (path : String) : Except Error String :=
  DarwinPlatform.open os path OpenOptions.directoryOpts

/-- Whether an error is the typed kind-mismatch error `Error::NotAFile`. -/
def Error.isNotAFile : Error → Bool
  | .NotAFile _ => true
  | _ => false

end PbFs.Darwin

namespace PbFs.Darwin

theorem darwinOpenFlags_readOnly :
    darwinOpenFlags OpenOptions.readOnlyOpts = 0 := rfl

theorem darwinOpenFlags_directory :
    darwinOpenFlags OpenOptions.directoryOpts = O_DIRECTORY := rfl

theorem fromDarwinSys_enotdir : fromDarwinSys 20 = .Unknown "20" := rfl

/-- C5 (amended): awaiting `open(path).as_file()` on a path that names a
directory fails with the typed kind-mismatch error `Error::NotAFile` without
returning a handle; awaiting `open(path).as_directory()` on a path that names
a regular file also fails without returning a handle, but with a different
error: the `O_DIRECTORY` open fails at the platform level with `ENOTDIR`
(errno 20), which `Error::from_darwin_sys` maps to `Error::Unknown("20")`,
not to the `NotAFile` kind-mismatch error. -/
theorem kind_mismatch_open_errors (os : ModelOs) (path : String) (st : FileStat)
    (h : os path = some st) :
    (st.kind = .Directory → asFileAwait os path = .error (.NotAFile "todo")) ∧
    (st.kind = .File → asDirectoryAwait os path = .error (.Unknown "20")) := by
  constructor
  · intro hk
    have hop : sysOpen os path (darwinOpenFlags OpenOptions.readOnlyOpts) =
        .ok path := by
      rw [darwinOpenFlags_readOnly]
      unfold sysOpen
      rw [h]
      have hz : (0 : Nat) &&& O_DIRECTORY = 0 := rfl
      simp [hz]
    unfold asFileAwait DarwinPlatform.open
    rw [hop]
    dsimp only
    unfold DarwinPlatform.fstat
    rw [h]
    dsimp only
    simp [hk]
  · intro hk
    have hop : sysOpen os path (darwinOpenFlags OpenOptions.directoryOpts) =
        .error 20 := by
      rw [darwinOpenFlags_directory]
      unfold sysOpen
      rw [h]
      have hnz : O_DIRECTORY &&& O_DIRECTORY ≠ 0 := by decide
      have hodz : O_DIRECTORY ≠ 0 := by decide
      simp [hnz, hodz, hk]
    unfold asDirectoryAwait DarwinPlatform.open
    rw [hop]
    rfl

/-- Stat of a sample regular file. -/
def fileStatSample : FileStat :=
  { size := 5, kind := .File, inode := 2, mode := 0x81FF, user := 0, group := 0,
    mtime := ⟨0, 0⟩, ctime := ⟨0, 0⟩, optimal_blocksize := some 4096 }

/-- Stat of a sample directory. -/
def dirStatSample : FileStat :=
  { size := 64, kind := .Directory, inode := 3, mode := 0x41FF, user := 0,
    group := 0, mtime := ⟨0, 0⟩, ctime := ⟨0, 0⟩, optimal_blocksize := none }

/-- Model filesystem with the regular file `f` and the directory `d`. -/
def sampleOs : ModelOs := fun p =>
  if p = "f" then some fileStatSample
  else if p = "d" then some dirStatSample
  else none

/-- C5 counterexample: `as_directory` on the regular file `f` fails with
`Error::Unknown("20")` — the raw `ENOTDIR` code mapped by
`Error::from_darwin_sys` — which is not the kind-mismatch error
`Error::NotAFile` the claim asserts for this case (while `as_file` on the
directory `d` does fail with `NotAFile`). -/
theorem as_directory_error_is_not_kind_mismatch :
    asDirectoryAwait sampleOs "f" = .error (.Unknown "20") ∧
    Error.isNotAFile (.Unknown "20") = false ∧
    asFileAwait sampleOs "d" = .error (.NotAFile "todo") ∧
    Error.isNotAFile (.NotAFile "todo") = true :=
  ⟨rfl, rfl, rfl, rfl⟩

/-- Witness for the amended C5 at the concrete model filesystem. -/
theorem kind_mismatch_open_errors_witness :
    asFileAwait sampleOs "d" = .error (.NotAFile "todo") ∧
    asDirectoryAwait sampleOs "f" = .error (.Unknown "20") :=
  ⟨(kind_mismatch_open_errors sampleOs "d" dirStatSample rfl).1 rfl,
   (kind_mismatch_open_errors sampleOs "f" fileStatSample rfl).2 rfl⟩

end PbFs.Darwin

namespace PbFs.Darwin

/-- Resource-limit identifiers from darwin/types.rs lines 113-130: `7` is the
number-of-processes limit, `8` is the number-of-open-files limit. -/
def RLIMIT_NPROC : Int := 7

/-- The number-of-open-files resource limit (darwin/types.rs line 130). -/
def RLIMIT_NOFILE : Int := 8

/-- Limits returned from `getrlimit` (darwin/types.rs lines 250-257). -/
structure rlimit where
  rlim_cur : Nat
  rlim_max : Nat
deriving DecidableEq, Repr

/-- `DarwinPlatform::file_handle_max` (darwin/mod.rs lines 341-348): query
`getrlimit` — passing `RLIMIT_NPROC` — and return the current (soft) limit.
The `getrlimit(2)` syscall is modelled as a map from resource identifier to
its limits. -/
def file_handle_max (getrlimit : Int → rlimit) : Nat :=
  (getrlimit RLIMIT_NPROC).rlim_cur

/-- A sample process-limit table: at most 2666 processes
(`RLIMIT_NPROC`), at most 256 open file descriptors (`RLIMIT_NOFILE`) —
the stock soft limits of a macOS shell. -/
def sampleLimits : Int → rlimit := fun r =>
  if r = RLIMIT_NPROC then ⟨2666, 2666⟩
  else if r = RLIMIT_NOFILE then ⟨256, 10240⟩
  else ⟨0, 0⟩

/-- C7: `file_handle_max` queries `RLIMIT_NPROC` — the process-count limit —
so on a process whose descriptor limit (256) differs from its process limit
(2666) it returns 2666, not the limit governing how many descriptors the
process may have open (`RLIMIT_NOFILE`, 256). -/
theorem file_handle_max_queries_process_limit :
    file_handle_max sampleLimits = 2666 ∧
    (sampleLimits RLIMIT_NOFILE).rlim_cur = 256 ∧
    file_handle_max sampleLimits ≠ (sampleLimits RLIMIT_NOFILE).rlim_cur :=
  ⟨rfl, rfl, by decide⟩

/-- Raw directory entry from `readdir` (darwin/types.rs lines 224-233).  The
name is modelled already UTF-8 decoded: `DirectoryEntry::try_from` decodes
`d_name[..d_namlen]` with `.expect(..)` and asserts `d_namlen <= 1024`, both
of which panic — abort the process — rather than return an error. -/
structure Dirent where
  d_ino : Nat
  d_name : String
  d_type : Nat
deriving DecidableEq, Repr

/-- `DT_DIR` (darwin/types.rs line 103). -/
def DT_DIR : Nat := 4

/-- `DT_REG` (darwin/types.rs line 107). -/
def DT_REG : Nat := 8

/-- `DT_LNK` (darwin/types.rs line 109). -/
def DT_LNK : Nat := 10

/-- `DirectoryEntry::try_from<dirent>` (darwin/mod.rs lines 404-434): decode
the name (`PbFilename::new` is total, path.rs lines 38-41, so the `?` on it
never produces an error), classify `d_type` with `DT_DIR`/`DT_LNK`/`DT_REG`,
falling back to `File` with a warning for unknown types. -/
def DirectoryEntry.tryFrom (d : Dirent) : Except Error DirectoryEntry :=
  let kind :=
    if d.d_type = DT_DIR then FileType.Directory
    else if d.d_type = DT_LNK then FileType.Symlink
    else FileType.File
  .ok { inode := d.d_ino, name := d.d_name, kind := kind }

/-- The conversion loop of `listdir` (darwin/mod.rs lines 180-188): convert
each dirent in order, returning early with the first error (the `?` on line
184). -/
def convertEntries : List Dirent → Except Error (List DirectoryEntry)
  | [] => .ok []
  | d :: rest =>
      match DirectoryEntry.tryFrom d with
      | .error e => .error e
      | .ok entry =>
          match convertEntries rest with
          | .error e => .error e
          | .ok es => .ok (entry :: es)

/-- Entry conversion can never fail: `DirectoryEntry::try_from` always
returns `Ok` (its failure modes are panics, not errors). -/
theorem convertEntries_ok (ds : List Dirent) :
    ∃ es, convertEntries ds = .ok es := by
  induction ds with
  | nil => exact ⟨[], rfl⟩
  | cons d rest ih =>
      obtain ⟨es, hes⟩ := ih
      refine ⟨⟨d.d_ino, d.d_name,
        if d.d_type = DT_DIR then FileType.Directory
        else if d.d_type = DT_LNK then FileType.Symlink
        else FileType.File⟩ :: es, ?_⟩
      simp only [convertEntries, DirectoryEntry.tryFrom]
      rw [hes]

/-- Descriptor-level OS state for `listdir`: the open file descriptors, the
open directory streams (identified by the descriptor backing them), and the
next fresh descriptor number. -/
structure OsState where
  openFds : List Nat
  openStreams : List Nat
  nextFd : Nat
deriving DecidableEq, Repr

/-- `dup(2)`: allocate a fresh descriptor referring to the same object. -/
def OsState.dup (s : OsState) : Nat × OsState :=
  (s.nextFd, { s with openFds := s.nextFd :: s.openFds, nextFd := s.nextFd + 1 })

/-- `fdopendir(3)`: take ownership of the descriptor and turn it into a
directory stream. -/
def OsState.fdopendir (s : OsState) (fd : Nat) : OsState :=
  { s with openFds := s.openFds.erase fd, openStreams := fd :: s.openStreams }

/-- `closedir(3)`: close the stream (and the descriptor it owns). -/
def OsState.closedir (s : OsState) (fd : Nat) : OsState :=
  { s with openStreams := s.openStreams.erase fd }

/-- `DarwinPlatform::listdir` (darwin/mod.rs lines 168-194): duplicate the
caller's descriptor (because `fdopendir` moves ownership of the descriptor to
the stream), open a directory stream on the duplicate (which can fail —
modelled by the `opendirFails` flag — in which case an `Unknown` error is
returned before any stream exists), convert every dirent read from the
stream, returning early on a conversion error (the `?` on line 184, which
skips the `closedir`), and otherwise close the stream and return the
entries. -/
def listdir (entries : List Dirent) (opendirFails : Bool) (s : OsState)
    (fd : Nat) : Except Error (List DirectoryEntry) × OsState :=
  let dup := OsState.dup s
  if opendirFails then (.error (.Unknown "failed to open directory"), dup.2)
  else
    let s₂ := dup.2.fdopendir dup.1
    match convertEntries entries with
    | .error e => (.error e, s₂)
    | .ok es => (.ok es, s₂.closedir dup.1)

/-- C8: `listdir` never consumes or invalidates the caller's descriptor —
it duplicates it before opening a directory stream — and on every execution
the set of open directory streams after the call equals the set before it:
any stream it opened has been closed before it returns.  The conversion-error
path, which would return with the stream still open, cannot execute because
`DirectoryEntry::try_from` never returns an error. -/
theorem listdir_keeps_handle_and_closes_stream (entries : List Dirent)
    (opendirFails : Bool) (s : OsState) (fd : Nat)
    (hfd : fd ∈ s.openFds) :
    fd ∈ (listdir entries opendirFails s fd).2.openFds ∧
    (listdir entries opendirFails s fd).2.openStreams = s.openStreams := by
  obtain ⟨es, hes⟩ := convertEntries_ok entries
  cases opendirFails with
  | true =>
      refine ⟨?_, rfl⟩
      simp only [listdir, OsState.dup]
      exact List.mem_cons_of_mem _ hfd
  | false =>
      constructor
      · simp only [listdir, OsState.dup, OsState.fdopendir, OsState.closedir,
          hes, Bool.false_eq_true, if_false]
        simpa [List.erase_cons_head] using hfd
      · simp [listdir, OsState.dup, OsState.fdopendir, OsState.closedir, hes,
          List.erase_cons_head]

/-- Witness for C8 at a concrete state: descriptor 5 open, one regular-file
entry; after `listdir` the descriptor is still open and no stream remains. -/
theorem listdir_keeps_handle_and_closes_stream_witness :
    (5 ∈ (listdir [⟨1, "x", DT_REG⟩] false ⟨[5], [], 6⟩ 5).2.openFds ∧
      (listdir [⟨1, "x", DT_REG⟩] false ⟨[5], [], 6⟩ 5).2.openStreams =
        (⟨[5], [], 6⟩ : OsState).openStreams) :=
  listdir_keeps_handle_and_closes_stream [⟨1, "x", DT_REG⟩] false
    ⟨[5], [], 6⟩ 5 (by simp)

end PbFs.Darwin

namespace PbFs.ReadIter

/-!
Embedding of the pooled read buffer and the pull-based read iterator:
`Block` (filesystem.rs lines 205-233) and `ReadIterator` (handle.rs lines
597-671).

`FilesystemPlatform::read` is positioned I/O (`pread`); its outcome at a
given offset is modelled by a function `w` from the offset to either an error
or the bytes placed at the front of the caller's buffer (at most the buffer's
length many).  For a regular file, `fileReadW` gives the crash-free
behavior: read `min(buffer length, remaining)` bytes at the offset.
Bytes are `Nat`; a `Block`'s contents are a `List Nat`.
-/

/-- `Block::new(size)` (filesystem.rs lines 212-216): a zero-filled buffer of
the given size. -/
def Block.new (size : Nat) : List Nat := List.replicate size 0

/-- `Block::size` (filesystem.rs lines 218-220). -/
def Block.size (b : List Nat) : Nat := b.length

/-- `Block::clear` (filesystem.rs lines 222-224): `Vec::clear`, which
truncates the vector to length 0 — it does not zero the existing bytes in
place. -/
def Block.clear (b : List Nat) : List Nat := []

/-- State of a `ReadIterator` (handle.rs lines 605-614): the reusable block's
current contents, the file offset, and the exhaustion flag. -/
structure ReadIterator where
  block : List Nat
  offset : Nat
  done : Bool
deriving DecidableEq, Repr

/-- `ReadIterator::new(handle, block)` (handle.rs lines 616-625): offset 0,
not done; the block comes from the worker's `BlockPool` and keeps whatever
contents it had. -/
def ReadIterator.new (block : List Nat) : ReadIterator :=
  { block := block, offset := 0, done := false }

/-- `ReadIterator::next` (handle.rs lines 634-669): return `None` once done;
otherwise read into the block at the current offset — the `self.block.clear()`
call before the read is commented out in the source (line 641), so the block
keeps the bytes past what the read fills — then: a read error sets `done` and
yields the error; a read of fewer bytes than the block size sets `done`,
advances the offset and yields the filled prefix; a full read advances the
offset and yields the filled prefix without setting `done`. -/
def ReadIterator.next (w : Nat → Except Error (List Nat)) (s : ReadIterator) :
    Option (Except Error (List Nat)) × ReadIterator :=
  if s.done then (none, s)
  else
    match w s.offset with
    | .error e => (some (.error e), { s with done := true })
    | .ok rawData =>
        let data := rawData.take s.block.length
        let bytesRead := data.length
        let block := data ++ s.block.drop bytesRead
        if bytesRead < s.block.length then
          (some (.ok (block.take bytesRead)),
            { block := block, offset := s.offset + bytesRead, done := true })
        else
          (some (.ok (block.take bytesRead)),
            { block := block, offset := s.offset + bytesRead, done := false })

/-- `pread` on a regular file with contents `file` into a buffer of length
`blockSize`: never fails, reads `min(blockSize, file.length - offset)` bytes
at `offset`. -/
def fileReadW (file : List Nat) (blockSize : Nat) :
    Nat → Except Error (List Nat) :=
  fun offset => .ok ((file.drop offset).take blockSize)

/-- The result of the k-th further call to `next` after the current one. -/
def ReadIterator.nextN (w : Nat → Except Error (List Nat)) (s : ReadIterator) :
    Nat → Option (Except Error (List Nat))
  | 0 => (ReadIterator.next w s).1
  | k + 1 => ReadIterator.nextN w (ReadIterator.next w s).2 k

/-- The drain loop used by `read_with` callers (for example the smoketests in
src/pb-filesystem/src/tests.rs): call `next` until it returns `None`,
collecting the yielded chunks; `none` when the fuel runs out or a read
errors. -/
def ReadIterator.collect (w : Nat → Except Error (List Nat)) :
    Nat → ReadIterator → Option (List (List Nat))
  | 0, _ => none
  | fuel + 1, s =>
      match ReadIterator.next w s with
      | (none, _) => some []
      | (some (.error _), _) => none
      | (some (.ok c), s₂) =>
          match ReadIterator.collect w fuel s₂ with
          | none => none
          | some cs => some (c :: cs)

/-- `write` at an offset, modelling `pwrite`: replace the bytes at
`[offset, offset + data.length)`, extending the file as needed.
`Handle::write` (handle.rs lines 186-193) discards the number of bytes
written; the model writes all of them. -/
def writeAt (file data : List Nat) (offset : Nat) : List Nat :=
  file.take offset ++ data ++ file.drop (offset + data.length)

/-- The block size chosen by `read_with` (handle.rs lines 212-216): 8 times
the file's optimal block size, defaulting to 4096 when unknown. -/
def readWithBlockSize (optimal_blocksize : Option Nat) : Nat :=
  (optimal_blocksize.getD 4096) * 8

end PbFs.ReadIter

namespace PbFs.ReadIter

/-- Stale contents left in the worker's pooled block by a previous read on
the same worker (the `BlockPool` hands the same `Block` back for the same
size, filesystem.rs lines 186-203). -/
def staleBlock : List Nat := [7, 7, 7, 7]

/-- C9: the pooled block is NOT cleared between uses.  Starting from a pooled
block holding `[7,7,7,7]` from a previous read, reading the one-byte file
`[9]` leaves the block as `[9,7,7,7]`: the stale bytes `7,7,7` from the
previous read are still in the buffer when the new chunk is produced, because
the `self.block.clear()` call in `ReadIterator::next` is commented out
(handle.rs line 641) even though the comment above it says the block must be
cleared.  Moreover `Block::clear` itself truncates the vector to length 0
rather than resetting its contents in place, so calling it would shrink the
buffer instead of clearing it. -/
theorem block_not_cleared_between_reads :
    (ReadIterator.next (fileReadW [9] 4) (ReadIterator.new staleBlock)).2.block =
      [9, 7, 7, 7] ∧
    (ReadIterator.next (fileReadW [9] 4) (ReadIterator.new staleBlock)).1 =
      some (.ok [9]) ∧
    Block.clear staleBlock = [] ∧
    Block.size (Block.clear staleBlock) ≠ Block.size staleBlock :=
  ⟨rfl, rfl, rfl, by decide⟩

/-- A done iterator stays done and yields nothing, forever. -/
theorem ReadIterator.nextN_done (w : Nat → Except Error (List Nat)) :
    ∀ k s, s.done = true → ReadIterator.nextN w s k = none := by
  intro k
  induction k with
  | zero =>
      intro s h
      simp [ReadIterator.nextN, ReadIterator.next, h]
  | succ k ih =>
      intro s h
      have hnext : ReadIterator.next w s = (none, s) := by
        simp [ReadIterator.next, h]
      simp only [ReadIterator.nextN, hnext]
      exact ih s h

/-- C10: the `ReadIterator` is permanently exhausted after its first error or
short read — once a call to `next` yields an error, or a chunk shorter than
the block size, every later call returns `None`: it never yields another
chunk and never retries the failed read. -/
theorem readiterator_exhausted_after_error_or_short
    (w : Nat → Except Error (List Nat)) (s : ReadIterator)
    (r : Except Error (List Nat)) (h : (ReadIterator.next w s).1 = some r)
    (hstop : (∃ e, r = .error e) ∨
      (∃ c, r = .ok c ∧ c.length < s.block.length)) :
    ∀ k, ReadIterator.nextN w (ReadIterator.next w s).2 k = none := by
  intro k
  apply ReadIterator.nextN_done
  unfold ReadIterator.next at h ⊢
  by_cases hd : s.done = true
  · rw [if_pos hd] at h
    cases h
  · rw [if_neg hd] at h ⊢
    cases hw : w s.offset with
    | error e => rfl
    | ok rawData =>
        rw [hw] at h
        dsimp only at h ⊢
        by_cases hlt : (rawData.take s.block.length).length < s.block.length
        · rw [if_pos hlt]
        · rw [if_neg hlt] at h ⊢
          exfalso
          dsimp only at h
          have hr := Option.some.inj h
          rcases hstop with ⟨e, he⟩ | ⟨c, hc, hclen⟩
          · rw [← hr] at he
            cases he
          · rw [← hr] at hc
            have hcc := Except.ok.inj hc
            have hlen : c.length = (rawData.take s.block.length).length := by
              rw [← hcc]
              have := List.take_left (rawData.take s.block.length)
                (s.block.drop (rawData.take s.block.length).length)
              simp [this]
            omega

/-- Witness for C10: reading the one-byte file `[1]` with a two-byte block
yields a short chunk `[1]`; the following call returns `None`. -/
theorem readiterator_exhausted_witness :
    (ReadIterator.next (fileReadW [1] 2) (ReadIterator.new (Block.new 2))).1 =
      some (.ok [1]) ∧
    ReadIterator.nextN (fileReadW [1] 2)
      (ReadIterator.next (fileReadW [1] 2) (ReadIterator.new (Block.new 2))).2
      0 = none :=
  ⟨rfl,
    readiterator_exhausted_after_error_or_short (fileReadW [1] 2)
      (ReadIterator.new (Block.new 2)) (.ok [1]) rfl
      (Or.inr ⟨[1], rfl, by decide⟩) 0⟩

end PbFs.ReadIter

namespace PbFs.ReadIter

/-- One `next` step on a regular file: yields the `min(blockSize, remaining)`
bytes at the offset, overwrites the front of the block with them, advances
the offset, and sets `done` exactly when the read was short. -/
theorem next_fileReadW (b : List Nat) (blockSize : Nat) (s : ReadIterator)
    (hlen : s.block.length = blockSize) (hdone : s.done = false) :
    ReadIterator.next (fileReadW b blockSize) s =
      if ((b.drop s.offset).take blockSize).length < blockSize then
        (some (.ok ((b.drop s.offset).take blockSize)),
          { block := (b.drop s.offset).take blockSize ++
              s.block.drop ((b.drop s.offset).take blockSize).length,
            offset := s.offset + ((b.drop s.offset).take blockSize).length,
            done := true })
      else
        (some (.ok ((b.drop s.offset).take blockSize)),
          { block := (b.drop s.offset).take blockSize ++
              s.block.drop ((b.drop s.offset).take blockSize).length,
            offset := s.offset + ((b.drop s.offset).take blockSize).length,
            done := false }) := by
  unfold ReadIterator.next fileReadW
  rw [if_neg (by simp [hdone])]
  dsimp only
  rw [hlen, List.take_take, min_self, List.take_left]

/-- Draining an already-exhausted iterator immediately yields the empty chunk
list. -/
theorem collect_done (w : Nat → Except Error (List Nat)) (fuel : Nat)
    (s : ReadIterator) (h : s.done = true) :
    ReadIterator.collect w (fuel + 1) s = some [] := by
  simp [ReadIterator.collect, ReadIterator.next, h]

/-- One-step unfolding of the drain loop. -/
theorem collect_succ (w : Nat → Except Error (List Nat)) (fuel : Nat)
    (s : ReadIterator) :
    ReadIterator.collect w (fuel + 1) s =
      match ReadIterator.next w s with
      | (none, _) => some []
      | (some (.error _), _) => none
      | (some (.ok c), s₂) =>
          match ReadIterator.collect w fuel s₂ with
          | none => none
          | some cs => some (c :: cs) := rfl

/-- Draining a `ReadIterator` over a regular file concatenates to exactly the
file contents from the current offset on, given a positive block size and
enough fuel. -/
theorem collect_fileReadW (b : List Nat) (blockSize : Nat)
    (hbs : 0 < blockSize) :
    ∀ fuel s, s.block.length = blockSize → s.done = false →
      s.offset ≤ b.length → b.length - s.offset + 2 ≤ fuel →
      ∃ cs, ReadIterator.collect (fileReadW b blockSize) fuel s = some cs ∧
        cs.flatten = b.drop s.offset := by
  intro fuel
  induction fuel with
  | zero => intro s _ _ _ hf; omega
  | succ k ih =>
      intro s hlen hdone hoff hfuel
      have hnext := next_fileReadW b blockSize s hlen hdone
      have hdlen : ((b.drop s.offset).take blockSize).length =
          min blockSize (b.length - s.offset) := by
        simp [List.length_take]
      by_cases hshort : ((b.drop s.offset).take blockSize).length < blockSize
      · rw [if_pos hshort] at hnext
        obtain ⟨k₁, rfl⟩ : ∃ k₁, k = k₁ + 1 := ⟨k - 1, by omega⟩
        refine ⟨[(b.drop s.offset).take blockSize], ?_, ?_⟩
        · rw [collect_succ, hnext]
          dsimp only
          rw [collect_done _ k₁ _ rfl]
        · have hrem : (b.drop s.offset).length ≤ blockSize := by
            simp only [List.length_drop]
            omega
          simp [List.take_of_length_le hrem]
      · rw [if_neg hshort] at hnext
        have hfull : ((b.drop s.offset).take blockSize).length = blockSize := by
          have hle : ((b.drop s.offset).take blockSize).length ≤ blockSize := by
            omega
          omega
        have hoff₂ : s.offset + blockSize ≤ b.length := by omega
        obtain ⟨cs, hc, hj⟩ := ih
          { block := (b.drop s.offset).take blockSize ++
              s.block.drop ((b.drop s.offset).take blockSize).length,
            offset := s.offset + ((b.drop s.offset).take blockSize).length,
            done := false }
          (by simp only [List.length_append, List.length_drop, hlen, hfull]
              omega)
          rfl
          (by simp only [hfull]; omega)
          (by simp only [hfull]; omega)
        refine ⟨(b.drop s.offset).take blockSize :: cs, ?_, ?_⟩
        · rw [collect_succ, hnext]
          dsimp only
          rw [hc]
        · rw [List.flatten_cons, hj]
          simp only [hfull]
          rw [show b.drop (s.offset + blockSize) =
              (b.drop s.offset).drop blockSize by
            rw [List.drop_drop]]
          exact List.take_append_drop blockSize (b.drop s.offset)

/-- C6. Write/read round trip: for every byte vector `data`, writing `data`
at offset 0 to a newly created (empty) file and then reading the file back
through `read_with` — draining the `ReadIterator` backed by a fresh pooled
block of the size `read_with` chooses, concatenating the yielded chunks until
it returns `None` — yields exactly `data`, whenever that block size is
positive (it always is unless the stat reports an optimal block size of 0). -/
theorem write_read_roundtrip (data : List Nat) (optB : Option Nat)
    (hbs : 0 < readWithBlockSize optB) :
    ∃ cs, ReadIterator.collect
        (fileReadW (writeAt [] data 0) (readWithBlockSize optB))
        ((writeAt [] data 0).length + 2)
        (ReadIterator.new (Block.new (readWithBlockSize optB))) = some cs ∧
      cs.flatten = data := by
  have hw : writeAt [] data 0 = data := by simp [writeAt]
  obtain ⟨cs, hc, hj⟩ := collect_fileReadW (writeAt [] data 0)
    (readWithBlockSize optB) hbs ((writeAt [] data 0).length + 2)
    (ReadIterator.new (Block.new (readWithBlockSize optB)))
    (by simp [ReadIterator.new, Block.new])
    rfl
    (by simp [ReadIterator.new])
    (by simp [ReadIterator.new])
  refine ⟨cs, hc, ?_⟩
  simpa [ReadIterator.new, hw] using hj

/-- Witness for C6: the bytes `[1, 2, 3]` written to a new file read back as
`[1, 2, 3]` with the default block sizing for an optimal block size of 1. -/
theorem write_read_roundtrip_witness :
    0 < readWithBlockSize (some 1) ∧
    ∃ cs, ReadIterator.collect
        (fileReadW (writeAt [] [1, 2, 3] 0) (readWithBlockSize (some 1)))
        ((writeAt [] [1, 2, 3] 0).length + 2)
        (ReadIterator.new (Block.new (readWithBlockSize (some 1)))) = some cs ∧
      cs.flatten = [1, 2, 3] :=
  ⟨by decide, write_read_roundtrip [1, 2, 3] (some 1) (by decide)⟩

end PbFs.ReadIter
